import Mathlib

/-!
Verification of the FantasyDraft NBA draft engine (silasnevstad/FantasyDraft).

This development shallowly embeds the draft valuation and assignment engine of
the repository: the roster slot schedule, the snake pick sequence, the
replacement-level / VORP / Adjusted-VORP recalculation, the slot assignment
policy, the pick operation, and the position recommendation engine, as found in
src/NBA/draft_logic.py and src/NBA/draft_gui.py.

Modelling conventions:
* Player statistics and projections are modelled as exact rationals.
* Python float values arising in the Adjusted-VORP computation have the form
  a / sqrt v (a VORP difference divided by a sample standard deviation) or NaN
  (pandas .std() of at most one sample).  They are represented symbolically by
  the type FV below; the strict-order test FV.lt implements the real-number
  comparison of a / sqrt u with b / sqrt v by sign analysis and squaring, and
  IEEE NaN semantics (every comparison involving NaN is false), exactly the
  comparisons Python performs on these values.
* Python dict iteration order (insertion order) is modelled by fixed key lists;
  Python sorted(..., reverse=True), a stable descending sort, is modelled by
  the stable insertion sort sortDescBy.
* pandas DataFrames are lists of rows; filtering, column assignment and
  .iloc indexing (including negative-index wrap-around) are modelled directly.
  The Combined Score and Tier columns recomputed by recalculate_metrics are
  presentation-only ranking columns: no operation embedded here reads them, so
  rows carry only the columns the engine itself consumes (identity, name,
  position list, projection, VORP, Adjusted VORP).
-/

namespace FantasyDraft

/-- The nine roster slot names of the fixed roster slot schedule
(draft_logic.py, DraftLogic.__init__: self.roster_slots). -/
inductive Slot where
  | PG | SG | SF | PF | C | G | F | UTIL | Bench
deriving DecidableEq, Repr

/-- Insertion order of the roster_slots dict: the enumeration order used by
positions_needed and calculate_position_values. -/
def slotOrder : List Slot := [.PG, .SG, .SF, .PF, .C, .G, .F, .UTIL, .Bench]

/-- self.positions = ['PG', 'SG', 'SF', 'PF', 'C']. -/
def positions5 : List Slot := [.PG, .SG, .SF, .PF, .C]

/-- A capacity assignment for the roster slot schedule. -/
abbrev Caps := Slot → Nat

/-- The capacities hard-coded in DraftLogic.__init__ (and module-level
roster_slots in draft_gui.py): one seat per specific position and flex slot,
three UTIL seats, three bench seats. -/
def defaultCaps : Caps := fun s =>
  match s with
  | .UTIL => 3
  | .Bench => 3
  | _ => 1

/-- Symbolic representation of the Python float values flowing through the
Adjusted-VORP pipeline: nan is IEEE NaN, and sq a v stands for the real number
a / sqrt v (well-formed when 0 < v; the plain rational a is sq a 1). -/
inductive FV where
  | nan : FV
  | sq : ℚ → ℚ → FV
deriving DecidableEq, Repr

namespace FV

/-- Whether the value is NaN. -/
def isNan : FV → Bool
  | nan => true
  | sq _ _ => false

/-- Embed a plain rational (a / sqrt 1). -/
def ofQ (a : ℚ) : FV := sq a 1

/-- Well-formedness: the radicand of a represented value is positive. -/
def WF : FV → Prop
  | nan => True
  | sq _ v => 0 < v

instance : DecidablePred WF := fun x =>
  match x with
  | nan => isTrue trivial
  | sq _ v => inferInstanceAs (Decidable (0 < v))

/-- Strict less-than on represented floats: a / sqrt u < b / sqrt v decided by
sign comparison and squaring; every comparison involving NaN is false (IEEE). -/
def lt : FV → FV → Bool
  | nan, _ => false
  | _, nan => false
  | sq a u, sq b v =>
    if 0 ≤ a then
      if 0 ≤ b then decide (a * a * v < b * b * u) else false
    else
      if 0 ≤ b then true else decide (b * b * u < a * a * v)

/-- Multiplication by a nonnegative rational scalar, as Python computes
score = value * scarcity: NaN is absorbing, and (a / sqrt v) * q =
(a * q) / sqrt v. -/
def mulQ : FV → ℚ → FV
  | nan, _ => nan
  | sq a v, q => sq (a * q) v

end FV

/-- One row of the player table, carrying the columns the draft engine reads:
PlayerID, Player (name), Position List, Projected Fantasy Points, and the
derived columns VORP and Adjusted VORP rewritten by recalculate_metrics. -/
structure Row where
  pid : Nat
  name : String
  posList : List Slot
  proj : ℚ
  vorp : ℚ
  adjv : FV
deriving DecidableEq, Repr

/-- A team roster: the list of player names occupying each slot
(team_rosters[team_num] in draft_logic.py). -/
abbrev Roster := Slot → List String

/-- The empty roster. -/
def emptyRoster : Roster := fun _ => []

section StableSort

variable {α κ : Type} (lt : κ → κ → Bool) (key : α → κ)

/-- One step of the stable descending insertion sort: place a before the first
element whose key is strictly below a's key (so equal keys keep their original
relative order). -/
def insertDesc (a : α) : List α → List α
  | [] => [a]
  | b :: bs => if lt (key b) (key a) then a :: b :: bs else b :: insertDesc a bs

/-- Model of Python sorted(xs, key=key, reverse=True): a stable
descending sort. -/
def sortDescBy (xs : List α) : List α :=
  xs.foldl (fun acc a => insertDesc lt key a acc) []

end StableSort



end FantasyDraft

namespace FantasyDraft

/-- Rational strict order as a Bool, the comparator Python uses when sorting
a DataFrame by a numeric column. -/
def qlt (a b : ℚ) : Bool := decide (a < b)

/-- Eligibility of a row for a slot as the engine filters the pool
(calculate_position_values / calculate_scarcity, draft_logic.py lines
205-238): flex G covers PG/SG, flex F covers SF/PF, every other slot name
(the five specific positions, and also UTIL and Bench) is tested by literal
membership in the row's Position List. -/
def eligAt (pos : Slot) (r : Row) : Bool :=
  match pos with
  | .G => r.posList.contains .PG || r.posList.contains .SG
  | .F => r.posList.contains .SF || r.posList.contains .PF
  | p => r.posList.contains p

/-- Position demand (recalculate_metrics, lines 247-259): specific-slot
capacity, plus covering flex capacity (G for PG/SG, F for SF/PF), plus UTIL
capacity, plus an even fifth of the bench, all times the number of teams. -/
def positionDemand (caps : Caps) (numTeams : ℕ) (pos : Slot) : ℚ :=
  let flex : ℚ :=
    (if pos = .PG ∨ pos = .SG then (caps .G : ℚ) else 0) +
    (if pos = .SF ∨ pos = .PF then (caps .F : ℚ) else 0) +
    (caps .UTIL : ℚ)
  ((caps pos : ℚ) + flex + (caps .Bench : ℚ) / 5) * (numTeams : ℚ)

/-- Python list / pandas .iloc integer indexing: a negative index wraps
around from the end; an index out of range (after wrapping) is an error,
modelled as none. -/
def pandasIloc {α : Type} (l : List α) (i : ℤ) : Option α :=
  if 0 ≤ i then l.get? i.toNat
  else if 0 ≤ (l.length : ℤ) + i then l.get? ((l.length : ℤ) + i).toNat
  else none

/-- The rows of the pool eligible at a specific position, sorted by Projected
Fantasy Points descending (recalculate_metrics lines 264-265). -/
def eligSorted (pool : List Row) (pos : Slot) : List Row :=
  sortDescBy qlt Row.proj (pool.filter (fun r => r.posList.contains pos))

/-- Replacement level of one position (recalculate_metrics lines 262-271):
the Projected Fantasy Points of the row at index int(demand) - 1 of the
descending-sorted eligible pool if that index is below the pool size
(with Python negative-index wrap-around; none models the IndexError when
the wrapped index is still out of range), and 0 otherwise. -/
def replacementLevel (caps : Caps) (numTeams : ℕ) (pool : List Row) (pos : Slot) :
    Option ℚ :=
  let ps := eligSorted pool pos
  let ridx : ℤ := ⌊positionDemand caps numTeams pos⌋ - 1
  if ridx < (ps.length : ℤ) then (pandasIloc ps ridx).map Row.proj
  else some 0

/-- The replacement_level dict rebuilt by recalculate_metrics, read back
through key lookup (its keys are exactly the five specific positions).  The
getD 0 default is unreachable for the program's fixed slot schedule and at
least one team (lemma replacementLevel_default_isSome below). -/
def replDict (numTeams : ℕ) (pool : List Row) : Slot → ℚ := fun pos =>
  (replacementLevel defaultCaps numTeams pool pos).getD 0

/-- Sample mean. -/
def listMean (xs : List ℚ) : ℚ := xs.sum / (xs.length : ℚ)

/-- pandas Series.std() with its default ddof = 1, kept as the variance
(the square of the standard deviation): NaN (none) for fewer than two
samples, otherwise sum of squared deviations over (n - 1). -/
def sampleVar (xs : List ℚ) : Option ℚ :=
  if xs.length ≤ 1 then none
  else some ((xs.map (fun x => (x - listMean xs) * (x - listMean xs))).sum / ((xs.length : ℚ) - 1))

/-- The position_std dict of recalculate_metrics (lines 290-293), as the
variance of Projected Fantasy Points of the rows whose Position List contains
the position; the represented std is its square root. -/
def positionStd (pool : List Row) (pos : Slot) : Option ℚ :=
  sampleVar ((pool.filter (fun r => r.posList.contains pos)).map Row.proj)

/-- calculate_vorp (recalculate_metrics lines 277-285): running maximum of
proj - replacement over the positions of the row that are keys of the
replacement_level dict (the five specific positions); 0 when none is. -/
def calcVorp (repl : Slot → ℚ) (r : Row) : ℚ :=
  let step := fun (acc : Option ℚ) (pos : Slot) =>
    if pos ∈ positions5 then
      let v := r.proj - repl pos
      match acc with
      | none => some v
      | some m => if m < v then some v else some m
    else acc
  (r.posList.foldl step none).getD 0

/-- adjust_vorp_for_scarcity (recalculate_metrics lines 295-304): for each
position of the row that is a key of both dicts and whose std compares
unequal to 0 (note: NaN != 0 is True in Python, so an undefined std is NOT
skipped and contributes NaN = vorp / NaN), divide the VORP difference by the
std and keep the running maximum under IEEE comparison (a later value
replaces the current one only if strictly greater, so NaN never replaces
anything and is never replaced); 0 when no position contributes. -/
def adjustVorp (repl : Slot → ℚ) (pstd : Slot → Option ℚ) (r : Row) : FV :=
  let step := fun (acc : Option FV) (pos : Slot) =>
    if pos ∈ positions5 ∧ pstd pos ≠ some 0 then
      let v : FV :=
        match pstd pos with
        | none => FV.nan
        | some w => FV.sq (r.proj - repl pos) w
      match acc with
      | none => some v
      | some m => if FV.lt m v then some v else some m
    else acc
  (r.posList.foldl step none).getD (FV.ofQ 0)

/-- recalculate_metrics (draft_logic.py lines 241-325) restricted to the
columns the engine reads back: rewrites the VORP and Adjusted VORP columns of
every row of the pool from the pool's replacement levels and per-position
standard deviations.  (Combined Score and Tier, also rewritten there, are
presentation-only ranking columns that no embedded operation reads.) -/
def recalcColumns (numTeams : ℕ) (pool : List Row) : List Row :=
  let repl := replDict numTeams pool
  let pstd := positionStd pool
  pool.map (fun r => { r with vorp := calcVorp repl r, adjv := adjustVorp repl pstd r })

/-- positions_needed (draft_logic.py lines 188-197): the slot names, in
roster_slots insertion order, whose occupancy is below capacity. -/
def positionsNeeded (caps : Caps) (roster : Roster) : List Slot :=
  slotOrder.filter (fun s => (roster s).length < caps s)

/-- pandas Series.max() with its default skipna=True over a list of floats:
the maximum of the non-NaN entries, NaN when all entries are NaN. -/
def pandasMax (vs : List FV) : FV :=
  match vs.filter (fun v => !v.isNan) with
  | [] => FV.nan
  | v :: rest => rest.foldl (fun m x => if FV.lt m x then x else m) v

/-- The value of one open position in calculate_position_values
(draft_logic.py lines 199-220): the maximum Adjusted VORP in the pool among
rows eligible for the position, or the int 0 when no row is eligible. -/
def positionValue (avail : List Row) (pos : Slot) : FV :=
  let f := avail.filter (eligAt pos)
  if f.isEmpty then FV.ofQ 0 else pandasMax (f.map Row.adjv)

/-- position_values.get(pos, 0): the dict built by calculate_position_values
skips positions already at capacity, and lookups on it default to 0. -/
def pvGet (avail : List Row) (caps : Caps) (roster : Roster) (pos : Slot) : FV :=
  if caps pos ≤ (roster pos).length then FV.ofQ 0 else positionValue avail pos

/-- calculate_scarcity (draft_logic.py lines 222-239): the reciprocal of the
number of pool rows eligible at the position, or 0 when there are none. -/
def calcScarcity (avail : List Row) (pos : Slot) : ℚ :=
  let count := (avail.filter (eligAt pos)).length
  if 0 < count then 1 / (count : ℚ) else 0

/-- Whether one iteration of the slot loop of
DraftLogic.assign_player_to_roster (lines 153-177) assigns the player:
a specific position requires membership in the Position List and an open
seat, flex G requires PG or SG, flex F requires SF or PF, UTIL only an open
seat; the loop has no branch for Bench (the bench is only the fallback after
the loop). -/
def slotAccepts (caps : Caps) (roster : Roster) (r : Row) (pos : Slot) : Bool :=
  match pos with
  | .G => (r.posList.contains .PG || r.posList.contains .SG) &&
      decide ((roster .G).length < caps .G)
  | .F => (r.posList.contains .SF || r.posList.contains .PF) &&
      decide ((roster .F).length < caps .F)
  | .UTIL => decide ((roster .UTIL).length < caps .UTIL)
  | .Bench => false
  | p => r.posList.contains p && decide ((roster p).length < caps p)

/-- DraftLogic.assign_player_to_roster (draft_logic.py lines 138-186): sort
the needed positions by calculate_position_values descending, append the
player's name to the first accepting slot, else to the bench if it has room;
none records the Roster Full warning (player assigned nowhere). -/
def assignPlayer (avail : List Row) (caps : Caps) (roster : Roster) (r : Row) :
    Roster × Option Slot :=
  let needed := positionsNeeded caps roster
  let sorted := sortDescBy FV.lt (pvGet avail caps roster) needed
  let chosen :=
    match sorted.find? (slotAccepts caps roster r) with
    | some s => some s
    | none => if (roster .Bench).length < caps .Bench then some .Bench else none
  match chosen with
  | some s => (fun t => if t = s then roster t ++ [r.name] else roster t, some s)
  | none => (roster, none)

/-- The failures DraftLogic.pick_player can raise: playerNotFound is the
ValueError for a player absent from the pool, invalidTeam the KeyError of a
team_rosters lookup with an unknown team number. -/
inductive PickErr where
  | playerNotFound
  | invalidTeam
deriving DecidableEq, Repr

/-- The draft session state owned by DraftLogic: pool, rosters, snake pick
sequence, cursor, and settings. -/
structure DraftState where
  numTeams : ℕ
  numRounds : ℕ
  available : List Row
  rosters : ℕ → Roster
  draftPicks : List (ℕ × ℕ)
  cursor : ℕ
  userPos : ℕ

/-- DraftLogic.pick_player (draft_logic.py lines 112-136): check the player
is available, assign to the team's roster, drop the player's rows from the
pool, recompute the derived columns, and advance the cursor. -/
def pickPlayer (st : DraftState) (playerId : ℕ) (teamNum : ℕ) :
    Except PickErr DraftState :=
  match st.available.filter (fun r => r.pid = playerId) with
  | [] => .error .playerNotFound
  | row :: _ =>
    if teamNum < 1 ∨ st.numTeams < teamNum then .error .invalidTeam
    else
      let assigned := assignPlayer st.available defaultCaps (st.rosters teamNum) row
      let rest := st.available.filter (fun r => ¬(r.pid = playerId))
      .ok { st with
        rosters := fun t => if t = teamNum then assigned.1 else st.rosters t,
        available := recalcColumns st.numTeams rest,
        cursor := st.cursor + 1 }

/-- The snake draft order generated by setup_new_draft (draft_logic.py lines
55-62): even 0-based rounds count teams 1..N up, odd rounds N..1 down. -/
def draftOrder (numTeams numRounds : ℕ) : List ℕ :=
  (List.range numRounds).flatMap (fun roundNum =>
    if roundNum % 2 = 0 then (List.range numTeams).map (· + 1)
    else (List.range numTeams).map (fun i => numTeams - i))

/-- list(enumerate(draft_order, start=1)): the (pick_number, team_number)
pairs of the pick sequence (draft_logic.py line 64). -/
def draftPicksList (numTeams numRounds : ℕ) : List (ℕ × ℕ) :=
  (draftOrder numTeams numRounds).enum.map (fun p => (p.1 + 1, p.2))

/-- A fresh session: setup_new_draft over a loaded table (rosters empty,
cursor 0, derived columns recomputed over the full pool). -/
def initState (data : List Row) (numTeams numRounds userPos : ℕ) : DraftState :=
  { numTeams := numTeams
    numRounds := numRounds
    available := recalcColumns numTeams data
    rosters := fun _ => emptyRoster
    draftPicks := draftPicksList numTeams numRounds
    cursor := 0
    userPos := userPos }

/-- get_current_pick_info (draft_logic.py lines 345-354): pick number, round
number and team of the pick at the cursor; none once the cursor is past the
end of the sequence. -/
def currentPickInfo (st : DraftState) : Option (ℕ × ℕ × ℕ) :=
  match st.draftPicks.get? st.cursor with
  | some (pickNum, teamNum) => some (pickNum, (pickNum - 1) / st.numTeams + 1, teamNum)
  | none => none

/-- generate_top_three_recommendations (draft_logic.py lines 356-374): score
every needed position of the user's roster by position value times scarcity,
sort descending (stable), and keep the first three. -/
def generateTopThree (st : DraftState) : List (Slot × FV) :=
  let roster := st.rosters st.userPos
  let needed := positionsNeeded defaultCaps roster
  if needed.isEmpty then []
  else
    let scored := needed.map (fun pos =>
      (pos, FV.mulQ (pvGet st.available defaultCaps roster pos) (calcScarcity st.available pos)))
    (sortDescBy FV.lt Prod.snd scored).take 3

end FantasyDraft

namespace FantasyDraft

/-- Whether one iteration of the slot loop of the GUI's
assign_player_to_roster (draft_gui.py lines 354-368) assigns the player: its
first test applies literal Position-List membership to every slot name, then
the G and F flex branches test their covered pairs. -/
def guiSlotAccepts (caps : Caps) (roster : Roster) (r : Row) (pos : Slot) : Bool :=
  (r.posList.contains pos && decide ((roster pos).length < caps pos)) ||
  (pos = Slot.G && (r.posList.contains .PG || r.posList.contains .SG) &&
    decide ((roster .G).length < caps .G)) ||
  (pos = Slot.F && (r.posList.contains .SF || r.posList.contains .PF) &&
    decide ((roster .F).length < caps .F))

/-- DraftSimulator.assign_player_to_roster (draft_gui.py lines 342-382): like
the DraftLogic version but with the loop above, then a UTIL fallback guarded
by membership of UTIL in the needed positions, then the bench fallback. -/
def assignPlayerGui (avail : List Row) (caps : Caps) (roster : Roster) (r : Row) :
    Roster × Option Slot :=
  let needed := positionsNeeded caps roster
  let sorted := sortDescBy FV.lt (pvGet avail caps roster) needed
  let chosen :=
    match sorted.find? (guiSlotAccepts caps roster r) with
    | some s => some s
    | none =>
      if needed.contains Slot.UTIL && decide ((roster .UTIL).length < caps .UTIL) then
        some Slot.UTIL
      else if (roster .Bench).length < caps .Bench then some Slot.Bench
      else none
  match chosen with
  | some s => (fun t => if t = s then roster t ++ [r.name] else roster t, some s)
  | none => (roster, none)

/-- The refusal messages DraftSimulator.handle_pick can surface before
mutating anything: the Draft Completed information dialog, the No Selection
warning, and the Selection Error warning. -/
inductive GuiMsg where
  | draftCompleted
  | noSelection
  | selectionError
deriving DecidableEq, Repr

/-- DraftSimulator.handle_pick (draft_gui.py lines 301-336): refuse when the
cursor is past the pick sequence, resolve the picking team from the sequence
at the cursor, require a selected available player, assign the player to the
picking team, remove the player from the pool by name, and advance the
cursor.  Returns the (possibly unchanged) state together with the refusal
surfaced, if any. -/
def handlePick (st : DraftState) (selected : Option String) :
    DraftState × Option GuiMsg :=
  if h : st.draftPicks.length ≤ st.cursor then (st, some .draftCompleted)
  else
    let teamNum := (st.draftPicks.get ⟨st.cursor, by omega⟩).2
    match selected with
    | none => (st, some .noSelection)
    | some name =>
      match st.available.filter (fun r => r.name = name) with
      | [] => (st, some .selectionError)
      | row :: _ =>
        let assigned := assignPlayerGui st.available defaultCaps (st.rosters teamNum) row
        let rest := st.available.filter (fun r => ¬(r.name = name))
        ({ st with
            rosters := fun t => if t = teamNum then assigned.1 else st.rosters t,
            available := rest,
            cursor := st.cursor + 1 }, none)

/-- Run a list of (player id, team) picks through DraftLogic.pick_player,
stopping at the first error. -/
def runPicks (st : DraftState) : List (ℕ × ℕ) → Option DraftState
  | [] => some st
  | (pid, team) :: rest =>
    match pickPlayer st pid team with
    | .ok st2 => runPicks st2 rest
    | .error _ => none

/-- The identity columns of a row (everything recalculate_metrics leaves
untouched). -/
def rowCore (r : Row) : ℕ × String × List Slot × ℚ := (r.pid, r.name, r.posList, r.proj)

end FantasyDraft


namespace FantasyDraft

/-! Specification-side definitions, written from the specification's words,
used to compare claims against the embedded code. -/

/-- Slot eligibility as the specification defines it (spec section 3):
a specific slot requires that position in the player's eligible set, flex G
requires PG or SG, flex F requires SF or PF, and the universal slot and the
bench accept any player unconditionally. -/
def eligibleForSlot (r : Row) (s : Slot) : Prop :=
  match s with
  | .G => Slot.PG ∈ r.posList ∨ Slot.SG ∈ r.posList
  | .F => Slot.SF ∈ r.posList ∨ Slot.PF ∈ r.posList
  | .UTIL => True
  | .Bench => True
  | p => p ∈ r.posList

/-- Running maximum of a list of float values under IEEE comparison, seeded
with a first value (a later value replaces the current one only if strictly
greater). -/
def runMaxFV (v : FV) (vs : List FV) : FV :=
  vs.foldl (fun m x => if FV.lt m x then x else m) v

/-- The claimed Adjusted VORP (claim C7, as stated): the maximum over the
player's eligible specific positions of (projection - replacement) divided by
the position's standard deviation, where positions with zero or undefined
standard deviation are skipped, and 0 when no position qualifies. -/
def claimAdjVorp (numTeams : ℕ) (pool : List Row) (r : Row) : FV :=
  let q := r.posList.filterMap (fun pos =>
    match positionStd pool pos with
    | none => none
    | some w =>
      if pos ∈ positions5 ∧ w ≠ 0 then
        some (FV.sq (r.proj - replDict numTeams pool pos) w)
      else none)
  match q with
  | [] => FV.ofQ 0
  | v :: rest => runMaxFV v rest

/-- The per-position float values the code's adjust_vorp_for_scarcity fold
actually ranges over, in Position-List order: every position that is a key of
both dicts and whose std compares unequal to 0 contributes, an undefined std
(NaN, which compares unequal to 0 in Python) contributing NaN. -/
def codeAdjVals (repl : Slot → ℚ) (pstd : Slot → Option ℚ) (r : Row) : List FV :=
  r.posList.filterMap (fun pos =>
    if pos ∈ positions5 ∧ pstd pos ≠ some 0 then
      some (match pstd pos with
        | none => FV.nan
        | some w => FV.sq (r.proj - repl pos) w)
    else none)

/-- Pool eligibility as the specification defines it (spec section 3), with
the universal slot and the bench accepting every player. -/
def specElig (pos : Slot) (r : Row) : Bool :=
  match pos with
  | .G => r.posList.contains .PG || r.posList.contains .SG
  | .F => r.posList.contains .SF || r.posList.contains .PF
  | .UTIL => true
  | .Bench => true
  | p => r.posList.contains p

/-- The claimed recommendation score of a position (claim C8, as stated,
with eligibility read per spec section 3): (maximum Adjusted VORP among
eligible pool players, or 0 if none) times scarcity, scarcity being the
reciprocal of the eligible-player count or 0 when that count is 0. -/
def claimScore (avail : List Row) (pos : Slot) : FV :=
  let elig := avail.filter (specElig pos)
  let value := if elig.isEmpty then FV.ofQ 0 else pandasMax (elig.map Row.adjv)
  let scarcity := if 0 < elig.length then 1 / (elig.length : ℚ) else 0
  FV.mulQ value scarcity

/-- The recommendation score with the code's pool eligibility (literal
Position-List membership for every non-flex slot name, so UTIL and Bench
match no player): the amended form of claim C8's score formula. -/
def amendedScore (avail : List Row) (pos : Slot) : FV :=
  let elig := avail.filter (eligAt pos)
  let value := if elig.isEmpty then FV.ofQ 0 else pandasMax (elig.map Row.adjv)
  let scarcity := if 0 < elig.length then 1 / (elig.length : ℚ) else 0
  FV.mulQ value scarcity

/-- The user's needed positions. -/
def userNeeded (st : DraftState) : List Slot :=
  positionsNeeded defaultCaps (st.rosters st.userPos)

/-- The user's needed positions, each paired with its amended claim score. -/
def scoredList (st : DraftState) : List (Slot × FV) :=
  (userNeeded st).map (fun pos => (pos, amendedScore st.available pos))

/-- The scored needed positions, stably sorted by score descending. -/
def rankedList (st : DraftState) : List (Slot × FV) :=
  sortDescBy FV.lt Prod.snd (scoredList st)

/-! Concrete inputs used by witnesses and counterexamples. -/

/-- A row with the given identity columns and zeroed derived columns. -/
def mkRow (pid : ℕ) (name : String) (posList : List Slot) (proj : ℚ) : Row :=
  { pid := pid, name := name, posList := posList, proj := proj,
    vorp := 0, adjv := FV.ofQ 0 }

/-- A completed two-team one-round session (cursor at the end of the pick
sequence). -/
def stDone : DraftState :=
  { numTeams := 2, numRounds := 1, available := [],
    rosters := fun _ => emptyRoster, draftPicks := draftPicksList 2 1,
    cursor := 2, userPos := 1 }

/-- A PG-only player. -/
def rowX : Row := mkRow 1 "X" [.PG] 10

/-- Nine PG-only players with distinct positive projections. -/
def data9 : List Row :=
  [mkRow 1 "P1" [.PG] 90, mkRow 2 "P2" [.PG] 85, mkRow 3 "P3" [.PG] 80,
   mkRow 4 "P4" [.PG] 75, mkRow 5 "P5" [.PG] 70, mkRow 6 "P6" [.PG] 65,
   mkRow 7 "P7" [.PG] 60, mkRow 8 "P8" [.PG] 55, mkRow 9 "P9" [.PG] 50]

/-- A fresh one-team nine-round session over those nine players. -/
def stNine : DraftState := initState data9 1 9 1

/-- The nine picks of that session, in pick order (team 1 picks every time). -/
def picks9 : List (ℕ × ℕ) :=
  [(1, 1), (2, 1), (3, 1), (4, 1), (5, 1), (6, 1), (7, 1), (8, 1), (9, 1)]

/-- A roster with every slot of the default schedule at capacity. -/
def fullRoster : Roster := fun s =>
  match s with
  | .PG => ["a1"]
  | .SG => ["a2"]
  | .SF => ["a3"]
  | .PF => ["a4"]
  | .C => ["a5"]
  | .G => ["a6"]
  | .F => ["a7"]
  | .UTIL => ["a8", "a9", "a10"]
  | .Bench => ["a11", "a12", "a13"]

/-- A one-team session whose single roster is completely full while one
player is still undrafted. -/
def stFull : DraftState :=
  { numTeams := 1, numRounds := 13, available := [rowX],
    rosters := fun t => if t = 1 then fullRoster else emptyRoster,
    draftPicks := draftPicksList 1 13, cursor := 0, userPos := 1 }

/-- Capacities for the C5 counterexample: one PG seat, one bench seat,
everything else zero, so the PG demand for one team is 1 + 1/5 = 1.2. -/
def capsFrac : Caps := fun s =>
  match s with
  | .PG => 1
  | .Bench => 1
  | _ => 0

/-- The one-player pool of the C5 counterexample. -/
def poolOne : List Row := [mkRow 1 "A" [.PG] 10]

/-- Capacities for the C6 counterexample, low demand: one PG seat only
(PG demand 1 for one team). -/
def capsLow : Caps := fun s =>
  match s with
  | .PG => 1
  | _ => 0

/-- Capacities for the C6 counterexample, raised demand: a G flex seat is
added (PG demand 2 for one team). -/
def capsHigh : Caps := fun s =>
  match s with
  | .PG => 1
  | .G => 1
  | _ => 0

/-- The two-player pool of the C6 counterexample. -/
def poolTwo : List Row := [mkRow 1 "A" [.PG] 10, mkRow 2 "B" [.PG] 5]

/-- The C7 counterexample pool: a single center, so the C position has one
eligible player and an undefined (NaN) standard deviation. -/
def poolC : List Row := [mkRow 1 "A" [.C] 10]

/-- A two-PG pool whose PG standard deviation is defined and nonzero. -/
def poolPG2 : List Row := [mkRow 1 "A" [.PG] 10, mkRow 2 "B" [.PG] 6]

/-- A roster needing only UTIL (every other slot of the default schedule at
capacity, UTIL at two of three). -/
def rosterNeedUtil : Roster := fun s =>
  match s with
  | .PG => ["p1"]
  | .SG => ["p2"]
  | .SF => ["p3"]
  | .PF => ["p4"]
  | .C => ["p5"]
  | .G => ["p6"]
  | .F => ["p7"]
  | .UTIL => ["p8", "p9"]
  | .Bench => ["p10", "p11", "p12"]

/-- The C8 counterexample session: freshly recalculated two-PG pool and a
user roster needing only UTIL. -/
def stUtil : DraftState :=
  { numTeams := 12, numRounds := 13, available := recalcColumns 12 poolPG2,
    rosters := fun t => if t = 1 then rosterNeedUtil else emptyRoster,
    draftPicks := draftPicksList 12 13, cursor := 0, userPos := 1 }

/-- A small two-player one-team session for the C10 witness. -/
def stSmall : DraftState :=
  { numTeams := 1, numRounds := 2,
    available := [mkRow 1 "A" [.PG] 10, mkRow 2 "B" [.C] 8],
    rosters := fun _ => emptyRoster,
    draftPicks := draftPicksList 1 2, cursor := 0, userPos := 1 }


/-- One step of the running-maximum fold of adjust_vorp_for_scarcity over an
optional accumulator. -/
def optMax (acc : Option FV) (v : FV) : Option FV :=
  match acc with
  | none => some v
  | some m => if FV.lt m v then some v else some m

/-- Whether a player name is recorded anywhere in a session: in the undrafted
pool or in any slot of any team's roster. -/
def mentionsName (st : DraftState) (n : String) : Bool :=
  (st.available.map Row.name).contains n ||
    (List.range (st.numTeams + 1)).any (fun t =>
      slotOrder.any (fun s => (st.rosters t s).contains n))

end FantasyDraft

/-! ## Theorems -/

namespace FantasyDraft

namespace FV

theorem lt_irrefl (x : FV) : lt x x = false := by
  cases x with
  | nan => rfl
  | sq a v =>
    simp only [lt]
    split <;> simp

theorem lt_asymm {x y : FV} (hx : WF x) (hy : WF y)
    (h : lt x y = true) : lt y x = false := by
  cases x with
  | nan => simp [lt] at h
  | sq a u =>
    cases y with
    | nan => simp [lt] at h
    | sq b v =>
      simp only [WF] at hx hy
      simp only [lt] at h ⊢
      by_cases ha : 0 ≤ a <;> by_cases hb : 0 ≤ b <;>
        simp [ha, hb] at h ⊢ <;> linarith

theorem lt_trans {x y z : FV} (hx : WF x) (hy : WF y) (hz : WF z)
    (hxy : lt x y = true) (hyz : lt y z = true) : lt x z = true := by
  cases x with
  | nan => simp [lt] at hxy
  | sq a u =>
    cases y with
    | nan => simp [lt] at hxy
    | sq b v =>
      cases z with
      | nan => simp [lt] at hyz
      | sq c w =>
        simp only [WF] at hx hy hz
        simp only [lt] at hxy hyz ⊢
        by_cases ha : 0 ≤ a <;> by_cases hb : 0 ≤ b <;> by_cases hc : 0 ≤ c <;>
          simp [ha, hb, hc] at hxy hyz ⊢ <;>
          nlinarith [mul_lt_mul_of_pos_right hxy hz, mul_lt_mul_of_pos_right hyz hx,
            mul_pos hy hz]

/-- If x < y and y is order-equivalent to z (both non-NaN, neither below the
other), then x < z. -/
theorem lt_of_lt_of_tie {x y z : FV} (hx : WF x) (hy : WF y) (hz : WF z)
    (hzn : z.isNan = false)
    (hxy : lt x y = true) (h1 : lt y z = false) (h2 : lt z y = false) :
    lt x z = true := by
  cases x with
  | nan => simp [lt] at hxy
  | sq a u =>
    cases y with
    | nan => simp [lt] at hxy
    | sq b v =>
      cases z with
      | nan => simp [isNan] at hzn
      | sq c w =>
        simp only [WF] at hx hy hz
        simp only [lt] at hxy h1 h2 ⊢
        by_cases ha : 0 ≤ a <;> by_cases hb : 0 ≤ b <;> by_cases hc : 0 ≤ c <;>
          simp [ha, hb, hc] at hxy h1 h2 ⊢ <;>
          nlinarith [mul_lt_mul_of_pos_right hxy hz, mul_pos hy hz,
            mul_le_mul_of_nonneg_right h1 hx.le, mul_le_mul_of_nonneg_right h2 hx.le]

end FV

section StableSortThms

variable {α κ : Type} (lt : κ → κ → Bool) (key : α → κ)

theorem insertDesc_perm (a : α) (l : List α) :
    (insertDesc lt key a l).Perm (a :: l) := by
  induction l with
  | nil => simp [insertDesc]
  | cons b bs ih =>
    simp only [insertDesc]
    split
    · exact List.Perm.refl _
    · exact ((ih.cons b).trans (List.Perm.swap a b bs)).symm.symm

theorem sortDescBy_perm (xs : List α) : (sortDescBy lt key xs).Perm xs := by
  suffices h : ∀ acc : List α,
      (xs.foldl (fun acc a => insertDesc lt key a acc) acc).Perm (xs.reverse ++ acc) by
    simpa using (h []).trans (by rw [List.append_nil]; exact List.reverse_perm xs)
  induction xs with
  | nil => intro acc; simp
  | cons x xs ih =>
    intro acc
    simp only [List.foldl_cons, List.reverse_cons, List.append_assoc, List.singleton_append]
    exact (ih _).trans (List.Perm.append_left _ (insertDesc_perm lt key x acc))

theorem sortDescBy_mem (xs : List α) (a : α) :
    a ∈ sortDescBy lt key xs ↔ a ∈ xs :=
  (sortDescBy_perm lt key xs).mem_iff

theorem sortDescBy_nil : sortDescBy lt key [] = [] := rfl

end StableSortThms

section StableSortLemmas

variable {α κ : Type} {lt : κ → κ → Bool} {key : α → κ} {P : κ → Prop}

theorem insertDesc_pairwise
    (hasymm : ∀ x y, P x → P y → lt x y = true → lt y x = false)
    (htrans : ∀ x y z, P x → P y → P z → lt x y = true → lt y z = true → lt x z = true)
    (a : α) (l : List α) (hPa : P (key a)) (hPl : ∀ b ∈ l, P (key b))
    (hl : l.Pairwise (fun x y => lt (key x) (key y) = false)) :
    (insertDesc lt key a l).Pairwise (fun x y => lt (key x) (key y) = false) := by
  induction l with
  | nil => simp [insertDesc]
  | cons b bs ih =>
    rw [List.pairwise_cons] at hl
    simp only [insertDesc]
    split
    · rename_i hba
      refine List.pairwise_cons.mpr ⟨?_, List.pairwise_cons.mpr hl⟩
      intro c hc
      rcases List.mem_cons.mp hc with rfl | hc
      · exact hasymm _ _ (hPl c (by simp)) hPa hba
      · by_contra hac
        rw [Bool.not_eq_false] at hac
        have hbc := htrans _ _ _ (hPl b (by simp)) hPa (hPl c (List.mem_cons_of_mem _ hc))
          hba hac
        rw [hl.1 c hc] at hbc
        exact Bool.false_ne_true hbc
    · rename_i hba
      refine List.pairwise_cons.mpr ⟨?_, ih (fun x hx => hPl x (List.mem_cons_of_mem _ hx)) hl.2⟩
      intro c hc
      rcases List.mem_cons.mp ((insertDesc_perm lt key a bs).mem_iff.mp hc) with rfl | hc
      · cases h2 : lt (key b) (key c)
        · rfl
        · exact absurd h2 hba
      · exact hl.1 c hc

theorem sortDescBy_pairwise
    (hasymm : ∀ x y, P x → P y → lt x y = true → lt y x = false)
    (htrans : ∀ x y z, P x → P y → P z → lt x y = true → lt y z = true → lt x z = true)
    (xs : List α) (hP : ∀ a ∈ xs, P (key a)) :
    (sortDescBy lt key xs).Pairwise (fun x y => lt (key x) (key y) = false) := by
  suffices h : ∀ acc : List α, (∀ b ∈ acc, P (key b)) →
      acc.Pairwise (fun x y => lt (key x) (key y) = false) →
      (xs.foldl (fun acc a => insertDesc lt key a acc) acc).Pairwise
        (fun x y => lt (key x) (key y) = false) by
    exact h [] (by simp) (by simp)
  induction xs with
  | nil => intro acc _ hacc; exact hacc
  | cons x xs ih =>
    intro acc hPacc hacc
    simp only [List.foldl_cons]
    refine ih (fun a ha => hP a (List.mem_cons_of_mem _ ha)) _ ?_ ?_
    · intro b hb
      rcases List.mem_cons.mp ((insertDesc_perm lt key x acc).mem_iff.mp hb) with rfl | hb
      · exact hP b (by simp)
      · exact hPacc b hb
    · exact insertDesc_pairwise hasymm htrans x acc (hP x (by simp)) hPacc hacc

/-- Stability of the sort model: for any tie class (elements whose keys are
order-equivalent to a fixed comparable key k), sorting preserves the original
relative order of the class members. good identifies comparable keys. -/
theorem sortDescBy_stable (good : κ → Bool)
    (hasymm : ∀ x y, P x → P y → lt x y = true → lt y x = false)
    (htrans : ∀ x y z, P x → P y → P z → lt x y = true → lt y z = true → lt x z = true)
    (hcomp : ∀ x y z, P x → P y → P z → good z = true →
      lt x y = true → lt y z = false → lt z y = false → lt x z = true)
    (xs : List α) (hP : ∀ a ∈ xs, P (key a)) (k : κ) (hk : P k) (hgk : good k = true) :
    (sortDescBy lt key xs).filter
        (fun a => good (key a) && !lt (key a) k && !lt k (key a))
      = xs.filter (fun a => good (key a) && !lt (key a) k && !lt k (key a)) := by
  set Q : α → Bool := fun a => good (key a) && !lt (key a) k && !lt k (key a) with hQ
  have hins : ∀ (a : α) (l : List α), P (key a) → (∀ b ∈ l, P (key b)) →
      l.Pairwise (fun x y => lt (key x) (key y) = false) →
      (insertDesc lt key a l).filter Q
        = if Q a then l.filter Q ++ [a] else l.filter Q := by
    intro a l hPa hPl hl
    induction l with
    | nil => simp only [insertDesc, List.filter]; split <;> simp_all
    | cons b bs ih =>
      rw [List.pairwise_cons] at hl
      simp only [insertDesc]
      split
      · rename_i hba
        by_cases hQa : Q a
        · -- a belongs to the tie class of k: nothing at or after the insertion
          -- point can belong to it
          have hQa' := hQa
          simp only [hQ, Bool.and_eq_true, Bool.not_eq_true', decide_eq_true_eq] at hQa'
          have hclass : ∀ c ∈ b :: bs, Q c = false := by
            intro c hc
            by_contra hQc
            rw [Bool.not_eq_false] at hQc
            have hQc' := hQc
            simp only [hQ, Bool.and_eq_true, Bool.not_eq_true', decide_eq_true_eq] at hQc'
            have hPc : P (key c) := hPl c hc
            have hPb : P (key b) := hPl b (by simp)
            -- lt (key b) (key a) and key a ~ k gives lt (key b) k
            have hbk : lt (key b) k = true :=
              hcomp _ _ _ hPb hPa hk hgk hba hQa'.1.2 hQa'.2
            rcases List.mem_cons.mp hc with rfl | hc
            · rw [hQc'.1.2] at hbk
              exact Bool.false_ne_true hbk
            · -- lt (key b) k and k ~ key c gives lt (key b) (key c),
              -- contradicting pairwise sortedness
              have hbc : lt (key b) (key c) = true :=
                hcomp _ _ _ hPb hk hPc hQc'.1.1 hbk hQc'.2 hQc'.1.2
              rw [hl.1 c hc] at hbc
              exact Bool.false_ne_true hbc
          rw [if_pos hQa]
          have hfb : Q b = false := hclass b (by simp)
          have hfbs : bs.filter Q = [] := by
            apply List.filter_eq_nil_iff.mpr
            intro c hc
            simp [hclass c (List.mem_cons_of_mem _ hc)]
          simp [List.filter_cons, hQa, hfb, hfbs]
        · rw [if_neg hQa]
          simp only [List.filter_cons]
          rw [if_neg (by simpa using hQa)]
      · rename_i hba
        have ih' := ih (fun x hx => hPl x (List.mem_cons_of_mem _ hx)) hl.2
        simp only [List.filter_cons]
        rw [ih']
        cases hQb : Q b <;> cases hQa : Q a <;>
          simp [hQa, hQb, List.filter_cons]
  suffices h : ∀ (ys acc : List α), (∀ b ∈ ys, P (key b)) → (∀ b ∈ acc, P (key b)) →
      acc.Pairwise (fun x y => lt (key x) (key y) = false) →
      (ys.foldl (fun acc a => insertDesc lt key a acc) acc).filter Q
        = acc.filter Q ++ ys.filter Q by
    simpa using h xs [] hP (by simp) (by simp)
  intro ys
  induction ys with
  | nil => intro acc _ _ _; simp
  | cons x xs2 ih =>
    intro acc hPys hPacc hacc
    have hPx : P (key x) := hPys x (by simp)
    simp only [List.foldl_cons]
    have hPins : ∀ b ∈ insertDesc lt key x acc, P (key b) := by
      intro b hb
      rcases List.mem_cons.mp ((insertDesc_perm lt key x acc).mem_iff.mp hb) with rfl | hb
      · exact hPx
      · exact hPacc b hb
    rw [ih _ (fun a ha => hPys a (List.mem_cons_of_mem _ ha)) hPins
        (insertDesc_pairwise hasymm htrans x acc hPx hPacc hacc),
      hins x acc hPx hPacc hacc]
    cases hQx : Q x <;> simp [List.filter_cons, hQx]

end StableSortLemmas

theorem recalcColumns_core (numTeams : ℕ) (pool : List Row) :
    (recalcColumns numTeams pool).map rowCore = pool.map rowCore := by
  simp only [recalcColumns, List.map_map]
  apply List.map_congr_left
  intro a _
  rfl

theorem recalcColumns_length (numTeams : ℕ) (pool : List Row) :
    (recalcColumns numTeams pool).length = pool.length := by
  simp [recalcColumns]

theorem sampleVar_nonneg (xs : List ℚ) (v : ℚ) (h : sampleVar xs = some v) : 0 ≤ v := by
  unfold sampleVar at h
  split at h
  · exact absurd h (by simp)
  · rename_i hlen
    simp only [Option.some.injEq] at h
    subst h
    apply div_nonneg
    · apply List.sum_nonneg
      intro x hx
      rcases List.mem_map.mp hx with ⟨y, _, rfl⟩
      exact mul_self_nonneg _
    · have : 2 ≤ xs.length := by omega
      have : (2 : ℚ) ≤ (xs.length : ℚ) := by exact_mod_cast this
      linarith

theorem pandasMax_mem_or_nan (vs : List FV) :
    pandasMax vs = FV.nan ∨ pandasMax vs ∈ vs := by
  unfold pandasMax
  split
  · exact Or.inl rfl
  · rename_i v rest hfil
    right
    have hsub : ∀ x, x ∈ v :: rest → x ∈ vs := by
      intro x hx
      have := List.filter_sublist (l := vs) (p := fun v => !v.isNan)
      rw [hfil] at this
      exact this.subset hx
    have : ∀ (l : List FV) (m : FV), m ∈ v :: rest → l ⊆ v :: rest →
        l.foldl (fun m x => if FV.lt m x then x else m) m ∈ v :: rest := by
      intro l
      induction l with
      | nil => intro m hm _; exact hm
      | cons a as ih =>
        intro m hm hsub2
        simp only [List.foldl_cons]
        have ha : a ∈ v :: rest := hsub2 (by simp)
        split
        · exact ih a ha (fun x hx => hsub2 (List.mem_cons_of_mem _ hx))
        · exact ih m hm (fun x hx => hsub2 (List.mem_cons_of_mem _ hx))
    exact hsub _ (this rest v (by simp) (by intro x hx; exact List.mem_cons_of_mem _ hx))

theorem pandasMax_WF (vs : List FV) (h : ∀ v ∈ vs, FV.WF v) : FV.WF (pandasMax vs) := by
  rcases pandasMax_mem_or_nan vs with heq | hmem
  · rw [heq]; trivial
  · exact h _ hmem

theorem positionValue_WF (avail : List Row) (pos : Slot)
    (h : ∀ r ∈ avail, FV.WF r.adjv) : FV.WF (positionValue avail pos) := by
  unfold positionValue
  simp only
  split
  · exact zero_lt_one
  · apply pandasMax_WF
    intro v hv
    rcases List.mem_map.mp hv with ⟨r, hr, rfl⟩
    exact h r (List.mem_of_mem_filter hr)

theorem mulQ_WF (x : FV) (q : ℚ) (h : FV.WF x) : FV.WF (FV.mulQ x q) := by
  cases x with
  | nan => trivial
  | sq a v => exact h

end FantasyDraft

/-! ## Claim theorems -/

namespace FantasyDraft

theorem assignPlayer_snd (avail : List Row) (caps : Caps)
    (roster : Roster) (r : Row) :
    (assignPlayer avail caps roster r).2 =
      match (sortDescBy FV.lt (pvGet avail caps roster)
          (positionsNeeded caps roster)).find? (slotAccepts caps roster r) with
      | some s => some s
      | none =>
        if (roster .Bench).length < caps .Bench then some Slot.Bench else none := by
  unfold assignPlayer
  simp only
  split <;> rename_i heq <;> rw [heq]

theorem assignPlayer_fst (avail : List Row) (caps : Caps)
    (roster : Roster) (r : Row) (s : Slot) :
    (assignPlayer avail caps roster r).1 s =
      match (assignPlayer avail caps roster r).2 with
      | some s0 => if s = s0 then roster s ++ [r.name] else roster s
      | none => roster s := by
  rw [assignPlayer_snd]
  unfold assignPlayer
  simp only
  split <;> rfl

theorem slotAccepts_eligible (caps : Caps) (roster : Roster) (r : Row) (s : Slot)
    (h : slotAccepts caps roster r s = true) : eligibleForSlot r s := by
  cases s <;>
    simp only [slotAccepts, Bool.and_eq_true, Bool.or_eq_true, List.elem_iff,
      decide_eq_true_eq] at h <;>
    first
      | exact h.1
      | exact h.1.imp id id
      | trivial

/-- C3: attempting a pick when the cursor is already terminal (equal to the
pick sequence length) is refused with the Draft Completed signal (the
specification's DraftCompletedError) before the picking team is resolved from
the pick sequence at the cursor, and the returned state is the input state,
unchanged in pool, rosters and cursor. -/
theorem pick_after_completion_unchanged (st : DraftState) (selected : Option String)
    (h : st.cursor = st.draftPicks.length) :
    handlePick st selected = (st, some GuiMsg.draftCompleted) := by
  unfold handlePick
  rw [dif_pos (le_of_eq h.symm)]

theorem pick_after_completion_unchanged_witness :
    stDone.cursor = stDone.draftPicks.length ∧
      handlePick stDone none = (stDone, some GuiMsg.draftCompleted) :=
  ⟨by decide, pick_after_completion_unchanged stDone none (by decide)⟩

/-- C9: the assignment policy never places a player into a slot for which the
player lacks eligibility: a specific slot only when that position is in the
player's position list, the G flex only for PG or SG, the F flex only for SF
or PF; only UTIL and the bench accept unconditionally.  Moreover the roster
is changed only by appending the player's name to the single chosen slot. -/
theorem assignment_respects_eligibility (avail : List Row) (caps : Caps)
    (roster : Roster) (r : Row) :
    (∀ s, (assignPlayer avail caps roster r).2 = some s → eligibleForSlot r s) ∧
    (∀ s, (assignPlayer avail caps roster r).1 s =
      if (assignPlayer avail caps roster r).2 = some s then roster s ++ [r.name]
      else roster s) := by
  constructor
  · intro s hs
    rw [assignPlayer_snd] at hs
    split at hs
    · rename_i s1 hfind
      simp only [Option.some.injEq] at hs
      subst hs
      exact slotAccepts_eligible caps roster r _ (List.find?_some hfind)
    · split at hs
      · simp only [Option.some.injEq] at hs
        subst hs
        trivial
      · exact absurd hs (by simp)
  · intro s
    rw [assignPlayer_fst]
    cases h2 : (assignPlayer avail caps roster r).2 with
    | none => simp
    | some s0 =>
      by_cases hss : s = s0
      · subst hss; simp
      · simp only [Option.some.injEq]
        rw [if_neg hss, if_neg (fun h => hss h.symm)]

theorem length_filter_pos_not {α : Type} (l : List α) (p : α → Prop) [DecidablePred p] :
    (l.filter (fun a => p a)).length + (l.filter (fun a => ¬(p a))).length = l.length := by
  have h := List.length_eq_countP_add_countP (p := fun a => decide (p a)) (l := l)
  simp only [List.countP_eq_length_filter] at h
  have hfun : (fun a => decide ¬(decide (p a) = true)) = (fun a => decide ¬(p a)) := by
    funext a
    by_cases h2 : p a <;> simp [h2]
  rw [hfun] at h
  omega

/-- C10: picking a player present in the undrafted pool for a valid team
removes exactly that one player from the pool (identity columns of every
other row unchanged, in order), increments the cursor by exactly one, leaves
every other team's roster unchanged, and — when the assignment found no open
slot, bench included — leaves every roster unchanged, the player being placed
nowhere. -/
theorem pick_frame_effects (st : DraftState) (pid team : ℕ) (row : Row)
    (hfil : st.available.filter (fun r => r.pid = pid) = [row])
    (h1 : 1 ≤ team) (h2 : team ≤ st.numTeams) :
    ∃ st2, pickPlayer st pid team = .ok st2 ∧
      st2.available.map rowCore
        = (st.available.filter (fun r => ¬(r.pid = pid))).map rowCore ∧
      st2.available.length + 1 = st.available.length ∧
      (∀ r2 ∈ st2.available, ¬(r2.pid = pid)) ∧
      st2.cursor = st.cursor + 1 ∧
      st2.rosters team = (assignPlayer st.available defaultCaps (st.rosters team) row).1 ∧
      (∀ t, t ≠ team → st2.rosters t = st.rosters t) ∧
      ((assignPlayer st.available defaultCaps (st.rosters team) row).2 = none →
        ∀ t, st2.rosters t = st.rosters t) := by
  unfold pickPlayer
  rw [hfil]
  simp only
  rw [if_neg (by omega : ¬(team < 1 ∨ st.numTeams < team))]
  refine ⟨_, rfl, ?_, ?_, ?_, rfl, ?_, ?_, ?_⟩
  · exact recalcColumns_core _ _
  · have hlen := length_filter_pos_not st.available (fun r => r.pid = pid)
    rw [hfil] at hlen
    simp only [List.length_cons, List.length_nil] at hlen
    rw [recalcColumns_length]
    omega
  · intro r2 hr2
    unfold recalcColumns at hr2
    rcases List.mem_map.mp hr2 with ⟨r, hr, rfl⟩
    simpa using List.of_mem_filter hr
  · simp
  · intro t ht
    simp [ht]
  · intro hnone t
    by_cases ht : t = team
    · subst ht
      funext s
      simp [assignPlayer_fst, hnone]
    · simp [ht]

theorem assignment_respects_eligibility_witness :
    (assignPlayer [] defaultCaps emptyRoster rowX).2 = some Slot.PG ∧
      eligibleForSlot rowX Slot.PG ∧
      (assignPlayer [] defaultCaps emptyRoster rowX).1 Slot.PG = [rowX.name] :=
  ⟨by with_unfolding_all decide,
   (assignment_respects_eligibility [] defaultCaps emptyRoster rowX).1 Slot.PG
     (by with_unfolding_all decide),
   by
    have h := (assignment_respects_eligibility [] defaultCaps emptyRoster rowX).2 Slot.PG
    rw [h, if_pos (by with_unfolding_all decide)]
    rfl⟩

end FantasyDraft

namespace FantasyDraft

theorem pick_frame_effects_witness :
    ∃ st2, pickPlayer stSmall 1 1 = .ok st2 ∧
      st2.cursor = stSmall.cursor + 1 ∧
      st2.available.length + 1 = stSmall.available.length :=
  match pick_frame_effects stSmall 1 1 (mkRow 1 "A" [.PG] 10)
    (by with_unfolding_all decide) (by decide) (by decide) with
  | ⟨st2, hok, _, hlen, _, hcur, _, _, _⟩ => ⟨st2, hok, hcur, hlen⟩

set_option maxRecDepth 100000 in
/-- C1 (code bug exhibit): running the one-team nine-round session stNine
through nine successful picks of its nine PG-only players leaves the pool
empty and the cursor at 9, yet player P9 is recorded nowhere: the roster
kept only P1..P8 (PG, G and the three UTIL and three bench seats), the ninth
pick fell through every slot including the full bench, and pick_player still
removed P9 from the pool — P9 vanished from all records, violating the
partition invariant. -/
theorem partition_violated_player_vanishes :
    mentionsName stNine "P9" = true ∧
    (runPicks stNine picks9).map (fun stF => mentionsName stF "P9") = some false ∧
    (runPicks stNine picks9).map (fun stF => (stF.available.length, stF.cursor))
      = some (0, 9) ∧
    (runPicks stNine picks9).map (fun stF => slotOrder.map (fun s => stF.rosters 1 s))
      = some [["P1"], [], [], [], [], ["P2"], [], ["P3", "P4", "P5"],
          ["P6", "P7", "P8"]] := by
  with_unfolding_all decide

set_option maxRecDepth 100000 in
/-- C2 (code bug exhibit): assigning the undrafted player X to the completely
full roster of team 1 in stFull assigns no slot (the Roster Full warning),
no typed error is raised to the caller, and pick_player nevertheless removes
X from the pool and advances the cursor, leaving every roster unchanged —
the player is dropped, contradicting the claim that the player stays in the
pool. -/
theorem roster_full_player_still_removed :
    (assignPlayer stFull.available defaultCaps (stFull.rosters 1) rowX).2 = none ∧
    (pickPlayer stFull 1 1).toOption.map
        (fun st2 => (st2.available.map Row.name, st2.cursor,
          slotOrder.map (fun s => st2.rosters 1 s)))
      = some ([], 1, slotOrder.map (fun s => fullRoster s)) ∧
    stFull.available.map Row.name = ["X"] := by
  with_unfolding_all decide

end FantasyDraft

namespace FantasyDraft

theorem draftOrder_succ (T R : ℕ) :
    draftOrder T (R + 1) = draftOrder T R ++
      (if R % 2 = 0 then (List.range T).map (· + 1)
       else (List.range T).map (fun i => T - i)) := by
  unfold draftOrder
  rw [List.range_succ, List.flatMap_append]
  simp

theorem draftOrder_length (T R : ℕ) : (draftOrder T R).length = R * T := by
  induction R with
  | zero => simp [draftOrder]
  | succ n ih =>
    rw [draftOrder_succ, List.length_append, ih]
    split <;> simp [Nat.succ_mul]

theorem draftOrder_get? (T R i : ℕ) (hT : 0 < T) (hi : i < R * T) :
    (draftOrder T R).get? i
      = some (if (i / T) % 2 = 0 then i % T + 1 else T - i % T) := by
  induction R with
  | zero => omega
  | succ n ih =>
    rw [draftOrder_succ]
    by_cases h : i < n * T
    · rw [List.get?_append (by rw [draftOrder_length]; exact h)]
      exact ih h
    · have hnT : n * T ≤ i := le_of_not_lt h
      have hsm : (n + 1) * T = n * T + T := Nat.succ_mul n T
      have hj : i - n * T < T := by omega
      rw [List.get?_append_right (by rw [draftOrder_length]; exact hnT),
        draftOrder_length]
      set j := i - n * T with hjdef
      have hieq : i = j + n * T := by omega
      have hdiv : i / T = n := by
        rw [hieq, Nat.add_mul_div_right _ _ hT, Nat.div_eq_of_lt hj]
        omega
      have hmod : i % T = j := by
        rw [hieq, Nat.add_mul_mod_self_right, Nat.mod_eq_of_lt hj]
      rw [hdiv, hmod]
      split
      · rw [List.get?_map, List.get?_range hj]
        rfl
      · rw [List.get?_map, List.get?_range hj]
        rfl

theorem enumFrom_get? {α : Type} (n : ℕ) (l : List α) (i : ℕ) :
    (List.enumFrom n l).get? i = (l.get? i).map (fun a => (n + i, a)) := by
  induction l generalizing n i with
  | nil => simp
  | cons a as ih =>
    cases i with
    | zero => simp
    | succ j =>
      simp only [List.enumFrom, List.get?_cons_succ, ih (n + 1) j]
      have : n + 1 + j = n + (j + 1) := by omega
      rw [this]

theorem draftPicksList_get? (T R i : ℕ) (hT : 0 < T) (hi : i < R * T) :
    (draftPicksList T R).get? i
      = some (i + 1, if (i / T) % 2 = 0 then i % T + 1 else T - i % T) := by
  unfold draftPicksList
  rw [List.get?_map]
  unfold List.enum
  rw [enumFrom_get?, draftOrder_get? T R i hT hi]
  simp [Nat.add_comm]

theorem pred_div_add_one_eq_ceil (p T : ℕ) (hT : 0 < T) (hp : 1 ≤ p) :
    (p - 1) / T + 1 = Nat.ceil ((p : ℚ) / (T : ℚ)) := by
  have hTQ : (0 : ℚ) < (T : ℚ) := by exact_mod_cast hT
  rw [eq_comm, Nat.ceil_eq_iff (Nat.succ_ne_zero ((p - 1) / T))]
  constructor
  · rw [Nat.succ_sub_one, lt_div_iff hTQ]
    have h1 : (p - 1) / T * T ≤ p - 1 := Nat.div_mul_le_self _ _
    have h2 : (p - 1) / T * T < p := lt_of_le_of_lt h1 (Nat.sub_lt (by omega) (by omega))
    exact_mod_cast h2
  · rw [div_le_iff hTQ]
    have h3 := Nat.div_add_mod (p - 1) T
    have h4 : (p - 1) % T < T := Nat.mod_lt _ hT
    have h2 : p ≤ ((p - 1) / T + 1) * T := by
      have h5 : ((p - 1) / T + 1) * T = T * ((p - 1) / T) + T := by ring
      rw [h5]
      generalize hA : T * ((p - 1) / T) = A at h3
      omega
    exact_mod_cast h2

/-- C4: the pick sequence generated at draft creation is a snake order over
numRounds rounds: its length is numTeams * numRounds; the 0-based entry i is
the 1-based, globally increasing pick number i + 1 paired with team
i % T + 1 in odd (1-based) rounds, counting up, and team T - i % T in even
rounds, counting down; and get_current_pick_info reports for pick p the round
number (p - 1) / T + 1, which equals the ceiling of p / numTeams. -/
theorem snake_order_correct (T R : ℕ) (hT : 1 ≤ T) :
    (draftPicksList T R).length = T * R ∧
    (∀ i, i < T * R →
      (draftPicksList T R).get? i
        = some (i + 1, if (i / T) % 2 = 0 then i % T + 1 else T - i % T)) ∧
    (∀ st : DraftState, st.numTeams = T → st.draftPicks = draftPicksList T R →
      ∀ p rnd team, currentPickInfo st = some (p, rnd, team) →
        1 ≤ p ∧ p ≤ T * R ∧ rnd = Nat.ceil ((p : ℚ) / (T : ℚ)) ∧
        team = if ((p - 1) / T) % 2 = 0 then (p - 1) % T + 1
          else T - (p - 1) % T) := by
  have hlen : (draftPicksList T R).length = T * R := by
    unfold draftPicksList
    rw [List.length_map, List.enum_length, draftOrder_length, Nat.mul_comm]
  refine ⟨hlen, fun i hi => draftPicksList_get? T R i hT (by rw [Nat.mul_comm R T]; exact hi), ?_⟩
  intro st hst hpicks p rnd team hinfo
  unfold currentPickInfo at hinfo
  rcases hget : st.draftPicks.get? st.cursor with _ | ⟨pickNum, teamNum⟩
  · rw [hget] at hinfo
    exact absurd hinfo (by simp)
  · rw [hget] at hinfo
    simp only [Option.some.injEq, Prod.mk.injEq] at hinfo
    obtain ⟨hp, hrnd, hteam⟩ := hinfo
    rw [hpicks] at hget
    have hcur : st.cursor < (draftPicksList T R).length := by
      by_contra hge
      rw [List.get?_eq_none.mpr (by omega)] at hget
      exact absurd hget (by simp)
    rw [hlen] at hcur
    have hform := draftPicksList_get? T R st.cursor hT (by rw [Nat.mul_comm R T]; exact hcur)
    rw [hform] at hget
    simp only [Option.some.injEq, Prod.mk.injEq] at hget
    obtain ⟨hpick, hteamNum⟩ := hget
    subst hp
    subst hpick
    have hp1 : st.cursor + 1 - 1 = st.cursor := by omega
    refine ⟨by omega, by omega, ?_, ?_⟩
    · rw [← hrnd, hst, hp1]
      exact pred_div_add_one_eq_ceil (st.cursor + 1) T hT (by omega)
    · rw [← hteam, ← hteamNum, hp1]

theorem snake_order_correct_witness :
    (draftPicksList 12 13).length = 12 * 13 ∧
    (draftPicksList 12 13).get? 0 = some (1, 1) ∧
    (draftPicksList 12 13).get? 11 = some (12, 12) ∧
    (draftPicksList 12 13).get? 12 = some (13, 12) ∧
    (draftPicksList 12 13).get? 23 = some (24, 1) :=
  ⟨(snake_order_correct 12 13 (by decide)).1,
   by rw [(snake_order_correct 12 13 (by decide)).2.1 0 (by decide)]; decide,
   by rw [(snake_order_correct 12 13 (by decide)).2.1 11 (by decide)]; decide,
   by rw [(snake_order_correct 12 13 (by decide)).2.1 12 (by decide)]; decide,
   by rw [(snake_order_correct 12 13 (by decide)).2.1 23 (by decide)]; decide⟩

end FantasyDraft

namespace FantasyDraft

theorem qlt_asymm (x y : ℚ) (h : qlt x y = true) : qlt y x = false := by
  simp only [qlt, decide_eq_true_eq] at h
  simp only [qlt, decide_eq_false_iff_not]
  linarith

theorem qlt_trans (x y z : ℚ) (h1 : qlt x y = true) (h2 : qlt y z = true) :
    qlt x z = true := by
  simp only [qlt, decide_eq_true_eq] at h1 h2 ⊢
  linarith

theorem eligSorted_perm (pool : List Row) (pos : Slot) :
    (eligSorted pool pos).Perm (pool.filter (fun r => r.posList.contains pos)) :=
  sortDescBy_perm qlt Row.proj _

theorem eligSorted_length (pool : List Row) (pos : Slot) :
    (eligSorted pool pos).length
      = (pool.filter (fun r => r.posList.contains pos)).length :=
  (eligSorted_perm pool pos).length_eq

theorem eligSorted_sorted (pool : List Row) (pos : Slot) :
    (eligSorted pool pos).Pairwise (fun x y => y.proj ≤ x.proj) := by
  have h : (eligSorted pool pos).Pairwise
      (fun x y => qlt (Row.proj x) (Row.proj y) = false) := by
    unfold eligSorted
    exact sortDescBy_pairwise (P := fun _ : ℚ => True)
      (fun x y _ _ => qlt_asymm x y) (fun x y z _ _ _ => qlt_trans x y z)
      (pool.filter (fun r => r.posList.contains pos)) (fun _ _ => trivial)
  exact h.imp (fun hrel => by
    simp only [qlt, decide_eq_false_iff_not] at hrel
    exact le_of_not_lt hrel)

/-- C5 (amended): for each specific position, recompute's demand is
(specific capacity + covering flex capacity + universal capacity +
bench capacity / 5) * numTeams; the replacement level is 0 exactly when
floor(demand) - 1 is at least the number of eligible pool players, and when
0 <= floor(demand) - 1 < that number it is the projection of the player at
0-based index floor(demand) - 1 of the eligible players sorted by raw
projection descending.  (The claim as stated said replacement is 0 whenever
demand exceeds the pool size; the code compares floor(demand) - 1 with the
pool size instead, see the counterexample.) -/
theorem replacement_level_characterization (caps : Caps) (T : ℕ) (pool : List Row)
    (pos : Slot) (_hpos : pos ∈ positions5) :
    positionDemand caps T pos
      = ((caps pos : ℚ) + ((if pos = .PG ∨ pos = .SG then (caps .G : ℚ) else 0) +
          (if pos = .SF ∨ pos = .PF then (caps .F : ℚ) else 0) + (caps .UTIL : ℚ)) +
          (caps .Bench : ℚ) / 5) * (T : ℚ) ∧
    (((pool.filter (fun r => r.posList.contains pos)).length : ℤ)
        ≤ ⌊positionDemand caps T pos⌋ - 1 →
      replacementLevel caps T pool pos = some 0) ∧
    (0 ≤ ⌊positionDemand caps T pos⌋ - 1 →
      ⌊positionDemand caps T pos⌋ - 1
        < ((pool.filter (fun r => r.posList.contains pos)).length : ℤ) →
      ∃ s : List Row, s.Perm (pool.filter (fun r => r.posList.contains pos)) ∧
        s.Pairwise (fun x y => y.proj ≤ x.proj) ∧
        replacementLevel caps T pool pos
          = (s.get? (⌊positionDemand caps T pos⌋ - 1).toNat).map Row.proj) := by
  refine ⟨rfl, ?_, ?_⟩
  · intro h
    unfold replacementLevel
    simp only
    rw [if_neg]
    rw [eligSorted_length]
    omega
  · intro h0 hlt
    refine ⟨eligSorted pool pos, eligSorted_perm pool pos, eligSorted_sorted pool pos, ?_⟩
    unfold replacementLevel
    simp only
    rw [if_pos (by rw [eligSorted_length]; exact hlt)]
    unfold pandasIloc
    rw [if_pos h0]

/-- C5 counterexample: with one PG seat, one bench seat and one team, the PG
demand is 1.2, which exceeds the single eligible pool player, yet the
computed replacement level is that player's projection 10, not 0 (the code
compares floor(demand) - 1 = 0 with the pool size 1). -/
theorem replacement_level_demand_counterexample :
    ((poolOne.filter (fun r => r.posList.contains Slot.PG)).length : ℚ)
        < positionDemand capsFrac 1 Slot.PG ∧
    replacementLevel capsFrac 1 poolOne Slot.PG = some 10 ∧
    (10 : ℚ) ≠ 0 := by
  with_unfolding_all decide

theorem replacement_level_characterization_witness :
    positionDemand defaultCaps 1 Slot.PG = 28 / 5 ∧
    ∃ s : List Row, s.Perm (data9.filter (fun r => r.posList.contains Slot.PG)) ∧
      s.Pairwise (fun x y => y.proj ≤ x.proj) ∧
      replacementLevel defaultCaps 1 data9 Slot.PG
        = (s.get? (⌊positionDemand defaultCaps 1 Slot.PG⌋ - 1).toNat).map Row.proj :=
  ⟨by with_unfolding_all decide,
   (replacement_level_characterization defaultCaps 1 data9 Slot.PG (by decide)).2.2
     (by with_unfolding_all decide) (by with_unfolding_all decide)⟩

end FantasyDraft

namespace FantasyDraft

/-- C6 (amended): for a fixed pool of players with nonnegative projections,
increasing a position's demand (for example by raising the capacity of a flex
slot covering it) never INCREASES that position's computed replacement level,
provided the smaller demand's floor is at least 1 (so that the cutoff index
is a genuine 0-based index and the negative-index wrap-around of the
iloc lookup is not triggered).  The claim as stated, "never decreases", fails
on the code: the cutoff moves deeper into the descending-sorted pool, see the
counterexample. -/
theorem replacement_level_antitone (capsA capsB : Caps) (T : ℕ) (pool : List Row)
    (pos : Slot)
    (hd : positionDemand capsA T pos ≤ positionDemand capsB T pos)
    (h1 : 1 ≤ ⌊positionDemand capsA T pos⌋)
    (hproj : ∀ r ∈ pool, 0 ≤ r.proj) :
    ∀ qA qB, replacementLevel capsA T pool pos = some qA →
      replacementLevel capsB T pool pos = some qB → qB ≤ qA := by
  intro qA qB hA hB
  have hfl := Int.floor_le_floor hd
  have hpw := eligSorted_sorted pool pos
  have hnn : ∀ r ∈ eligSorted pool pos, 0 ≤ r.proj := fun r hr =>
    hproj r (List.mem_of_mem_filter ((eligSorted_perm pool pos).mem_iff.mp hr))
  unfold replacementLevel at hA hB
  simp only at hA hB
  set iA := (⌊positionDemand capsA T pos⌋ - 1 : ℤ) with hiA
  set iB := (⌊positionDemand capsB T pos⌋ - 1 : ℤ) with hiB
  have hAB : iA ≤ iB := by omega
  have h0A : (0 : ℤ) ≤ iA := by omega
  have h0B : (0 : ℤ) ≤ iB := by omega
  split at hA
  · rename_i hAlt
    unfold pandasIloc at hA
    rw [if_pos h0A] at hA
    rcases Option.map_eq_some'.mp hA with ⟨rA, hgA, hqA⟩
    rcases List.get?_eq_some.mp hgA with ⟨hlenA, hgetA⟩
    split at hB
    · rename_i hBlt
      unfold pandasIloc at hB
      rw [if_pos h0B] at hB
      rcases Option.map_eq_some'.mp hB with ⟨rB, hgB, hqB⟩
      rcases List.get?_eq_some.mp hgB with ⟨hlenB, hgetB⟩
      subst hqA
      subst hqB
      rcases eq_or_lt_of_le hAB with heq | hlt2
      · rw [heq] at hgA
        rw [hgA] at hgB
        simp only [Option.some.injEq] at hgB
        rw [hgB]
      · have hij : (⟨iA.toNat, hlenA⟩ : Fin (eligSorted pool pos).length)
            < ⟨iB.toNat, hlenB⟩ := by
          simp only [Fin.mk_lt_mk]
          omega
        have hrel := List.pairwise_iff_get.mp hpw _ _ hij
        rw [hgetA, hgetB] at hrel
        exact hrel
    · rename_i hBge
      simp only [Option.some.injEq] at hB
      rw [← hB]
      subst hqA
      rw [← hgetA]
      exact hnn _ (List.get_mem _ _ _)
  · rename_i hAge
    simp only [Option.some.injEq] at hA
    split at hB
    · rename_i hBlt
      exact absurd hBlt (by omega)
    · simp only [Option.some.injEq] at hB
      rw [← hA, ← hB]

/-- C6 counterexample: over a fixed two-player PG pool (projections 10 and
5), raising the PG demand from 1 (one PG seat) to 2 (adding a G flex seat)
moves the replacement level from 10 down to 5 — increasing demand DECREASED
the replacement level, refuting the claim as stated. -/
theorem replacement_level_monotone_counterexample :
    positionDemand capsLow 1 Slot.PG < positionDemand capsHigh 1 Slot.PG ∧
    replacementLevel capsLow 1 poolTwo Slot.PG = some 10 ∧
    replacementLevel capsHigh 1 poolTwo Slot.PG = some 5 ∧
    ¬ ((10 : ℚ) ≤ 5) := by
  with_unfolding_all decide

theorem replacement_level_antitone_witness : (5 : ℚ) ≤ 10 :=
  replacement_level_antitone capsLow capsHigh 1 poolTwo Slot.PG
    (by with_unfolding_all decide) (by with_unfolding_all decide)
    (by with_unfolding_all decide) 10 5
    (by with_unfolding_all decide) (by with_unfolding_all decide)

end FantasyDraft

namespace FantasyDraft

namespace FV

/-- Transitivity of the negated strict order on comparable well-formed
values (x not below y and y not below z imply x not below z). -/
theorem nlt_trans {x y z : FV} (hx : WF x) (hy : WF y) (hz : WF z)
    (hxn : x.isNan = false) (hyn : y.isNan = false) (hzn : z.isNan = false)
    (hxy : lt x y = false) (hyz : lt y z = false) : lt x z = false := by
  cases x with
  | nan => simp [isNan] at hxn
  | sq a u =>
    cases y with
    | nan => simp [isNan] at hyn
    | sq b v =>
      cases z with
      | nan => simp [isNan] at hzn
      | sq c w =>
        simp only [WF] at hx hy hz
        simp only [lt] at hxy hyz ⊢
        by_cases ha : 0 ≤ a <;> by_cases hb : 0 ≤ b <;> by_cases hc : 0 ≤ c <;>
          simp [ha, hb, hc] at hxy hyz ⊢ <;>
          nlinarith [mul_le_mul_of_nonneg_right hxy hz.le,
            mul_le_mul_of_nonneg_right hyz hx.le, mul_pos hy hz]

/-- Nothing is below NaN. -/
theorem lt_nan (x : FV) : lt x nan = false := by cases x <;> rfl

/-- NaN is below nothing. -/
theorem nan_lt (x : FV) : lt nan x = false := by cases x <;> rfl

end FV

theorem foldl_guard_filterMap {A B C : Type} (p : A → Prop) [DecidablePred p]
    (f : A → B) (g : C → B → C) (l : List A) (init : C) :
    l.foldl (fun acc a => if p a then g acc (f a) else acc) init
      = (l.filterMap (fun a => if p a then some (f a) else none)).foldl g init := by
  induction l generalizing init with
  | nil => rfl
  | cons a as ih =>
    simp only [List.foldl_cons, List.filterMap_cons]
    by_cases h : p a
    · rw [if_pos h, if_pos h]
      simp only [List.foldl_cons]
      exact ih _
    · rw [if_neg h, if_neg h]
      exact ih _

theorem foldl_optMax_some (vs : List FV) (v : FV) :
    vs.foldl optMax (some v) = some (runMaxFV v vs) := by
  induction vs generalizing v with
  | nil => rfl
  | cons a as ih =>
    rw [List.foldl_cons]
    have h1 : optMax (some v) a = some (if FV.lt v a then a else v) := by
      simp only [optMax]
      split <;> rfl
    rw [h1, ih]
    simp only [runMaxFV, List.foldl_cons]

theorem runMaxFV_nan (vs : List FV) : runMaxFV FV.nan vs = FV.nan := by
  induction vs with
  | nil => rfl
  | cons a as ih =>
    simp only [runMaxFV, List.foldl_cons]
    rw [FV.nan_lt]
    exact ih

theorem runMaxFV_spec (vs : List FV) (v : FV)
    (hWF : ∀ x ∈ v :: vs, FV.WF x) (hv : v.isNan = false) :
    (runMaxFV v vs).isNan = false ∧ runMaxFV v vs ∈ v :: vs ∧
      ∀ x ∈ v :: vs, FV.lt (runMaxFV v vs) x = false := by
  induction vs generalizing v with
  | nil =>
    refine ⟨hv, by simp [runMaxFV], ?_⟩
    intro x hx
    rcases List.mem_singleton.mp hx with rfl
    exact FV.lt_irrefl x
  | cons a as ih =>
    have hvW : FV.WF v := hWF v (by simp)
    have haW : FV.WF a := hWF a (by simp)
    have hstep : runMaxFV v (a :: as) = runMaxFV (if FV.lt v a then a else v) as := by
      simp only [runMaxFV, List.foldl_cons]
    cases hva : FV.lt v a with
    | true =>
      have han : a.isNan = false := by
        cases a with
        | nan =>
          rw [FV.lt_nan] at hva
          exact absurd hva Bool.false_ne_true
        | sq b w => rfl
      have hWF2 : ∀ x ∈ a :: as, FV.WF x := fun x hx => hWF x (by
        rcases List.mem_cons.mp hx with rfl | hx
        · simp
        · simp [hx])
      obtain ⟨h1, h2, h3⟩ := ih a hWF2 han
      rw [hstep, if_pos hva]
      refine ⟨h1, ?_, ?_⟩
      · rcases List.mem_cons.mp h2 with heq | hmem
        · simp [heq]
        · simp [hmem]
      · intro x hx
        rcases List.mem_cons.mp hx with rfl | hx
        · -- x = v : the result is at least a, which is above v
          by_contra hc
          rw [Bool.not_eq_false] at hc
          have hresW : FV.WF (runMaxFV a as) := hWF _ (by
            rcases List.mem_cons.mp h2 with heq | hmem
            · simp [heq]
            · simp [hmem])
          have := FV.lt_trans hresW hvW haW hc hva
          rcases List.mem_cons.mp h2 with heq | hmem
          · rw [heq] at this
            rw [FV.lt_irrefl] at this
            exact Bool.false_ne_true this
          · rw [h3 a (by simp)] at this
            exact Bool.false_ne_true this
        · exact h3 x hx
    | false =>
      have hWF2 : ∀ x ∈ v :: as, FV.WF x := fun x hx => hWF x (by
        rcases List.mem_cons.mp hx with rfl | hx
        · simp
        · simp [hx])
      obtain ⟨h1, h2, h3⟩ := ih v hWF2 hv
      rw [hstep, if_neg (by simp [hva])]
      refine ⟨h1, ?_, ?_⟩
      · rcases List.mem_cons.mp h2 with heq | hmem
        · simp [heq]
        · simp [hmem]
      · intro x hx
        rcases List.mem_cons.mp hx with rfl | hx
        · exact h3 x (by simp)
        · rcases List.mem_cons.mp hx with rfl | hx
          · -- x = a : result not below v and v not below a
            cases han : x.isNan with
            | true =>
              cases x with
              | nan => exact FV.lt_nan _
              | sq b w => simp [FV.isNan] at han
            | false =>
              have hresW : FV.WF (runMaxFV v as) := hWF _ (by
                rcases List.mem_cons.mp h2 with heq | hmem
                · simp [heq]
                · simp [hmem])
              exact FV.nlt_trans hresW hvW (hWF x (by simp)) h1 hv han
                (h3 v (by simp)) hva
          · exact h3 x (by simp [hx])

theorem adjustVorp_eq_fold (repl : Slot → ℚ) (pstd : Slot → Option ℚ) (r : Row) :
    adjustVorp repl pstd r
      = ((codeAdjVals repl pstd r).foldl optMax (none : Option FV)).getD (FV.ofQ 0) :=
  congrArg (fun o => Option.getD o (FV.ofQ 0))
    (foldl_guard_filterMap
      (fun pos => pos ∈ positions5 ∧ pstd pos ≠ some 0)
      (fun pos =>
        (match pstd pos with
          | none => FV.nan
          | some w => FV.sq (r.proj - repl pos) w : FV))
      optMax r.posList none)

theorem codeAdjVals_WF (numTeams : ℕ) (pool : List Row) (r : Row) :
    ∀ x ∈ codeAdjVals (replDict numTeams pool) (positionStd pool) r, FV.WF x := by
  intro x hx
  unfold codeAdjVals at hx
  rcases List.mem_filterMap.mp hx with ⟨pos, _, hpos⟩
  split at hpos
  · rename_i hguard
    simp only [Option.some.injEq] at hpos
    subst hpos
    cases hstd : positionStd pool pos with
    | none => trivial
    | some w =>
      simp only [hstd]
      have hnn : 0 ≤ w := sampleVar_nonneg _ _ hstd
      have hne : w ≠ 0 := by
        intro hw
        subst hw
        exact hguard.2 hstd
      simp only [FV.WF]
      exact lt_of_le_of_ne hnn (Ne.symm hne)
  · exact absurd hpos (by simp)

/-- C7 (amended): a player's Adjusted VORP is computed by a running maximum
over the per-position values (projection - replacement) / std, taken over the
player's positions among the five specific positions whose std compares
unequal to 0.  A position with zero std is skipped; a position with an
UNDEFINED std (at most one eligible pool player) is NOT skipped — NaN != 0
holds in Python — and contributes NaN: if the first contributing position
contributes NaN the result is NaN (NaN is never replaced under IEEE
comparison), otherwise NaN contributions are ignored and the result is a
maximal non-NaN contributed value; the result is 0 when no position
contributes.  (The claim as stated said undefined-std positions are skipped
like zero-std ones; see the counterexample.) -/
theorem adjusted_vorp_characterization (numTeams : ℕ) (pool : List Row) (r : Row) :
    (codeAdjVals (replDict numTeams pool) (positionStd pool) r = [] →
      adjustVorp (replDict numTeams pool) (positionStd pool) r = FV.ofQ 0) ∧
    (∀ v vs, codeAdjVals (replDict numTeams pool) (positionStd pool) r = v :: vs →
      v = FV.nan →
      adjustVorp (replDict numTeams pool) (positionStd pool) r = FV.nan) ∧
    (∀ v vs, codeAdjVals (replDict numTeams pool) (positionStd pool) r = v :: vs →
      v.isNan = false →
      adjustVorp (replDict numTeams pool) (positionStd pool) r ∈ v :: vs ∧
      (adjustVorp (replDict numTeams pool) (positionStd pool) r).isNan = false ∧
      ∀ x ∈ v :: vs,
        FV.lt (adjustVorp (replDict numTeams pool) (positionStd pool) r) x
          = false) := by
  refine ⟨?_, ?_, ?_⟩
  · intro hnil
    rw [adjustVorp_eq_fold, hnil]
    rfl
  · intro v vs hcons hnan
    rw [adjustVorp_eq_fold, hcons]
    subst hnan
    simp only [List.foldl_cons]
    have h0 : optMax (none : Option FV) FV.nan = some FV.nan := rfl
    rw [h0, foldl_optMax_some, runMaxFV_nan]
    rfl
  · intro v vs hcons hv
    have hWF : ∀ x ∈ v :: vs, FV.WF x := by
      rw [← hcons]
      exact codeAdjVals_WF numTeams pool r
    have hres : adjustVorp (replDict numTeams pool) (positionStd pool) r
        = runMaxFV v vs := by
      rw [adjustVorp_eq_fold, hcons]
      simp only [List.foldl_cons]
      have h0 : optMax (none : Option FV) v = some v := rfl
      rw [h0, foldl_optMax_some]
      rfl
    rw [hres]
    obtain ⟨h1, h2, h3⟩ := runMaxFV_spec vs v hWF hv
    exact ⟨h2, h1, h3⟩

/-- C7 counterexample: a pool consisting of a single center has an undefined
(NaN) PG..C standard deviations at C (one sample); the claim's formula skips
zero-or-undefined-std positions and yields 0, but the code computes
vorp / NaN = NaN for that player's Adjusted VORP column. -/
theorem adjusted_vorp_nan_counterexample :
    claimAdjVorp 12 poolC (mkRow 1 "A" [.C] 10) = FV.ofQ 0 ∧
    (recalcColumns 12 poolC).map Row.adjv = [FV.nan] ∧
    FV.nan ≠ FV.ofQ 0 := by
  with_unfolding_all decide

theorem adjusted_vorp_characterization_witness :
    adjustVorp (replDict 1 poolPG2) (positionStd poolPG2) (mkRow 1 "A" [.PG] 10)
        ∈ [FV.sq 10 8] ∧
      (adjustVorp (replDict 1 poolPG2) (positionStd poolPG2)
        (mkRow 1 "A" [.PG] 10)).isNan = false :=
  match (adjusted_vorp_characterization 1 poolPG2 (mkRow 1 "A" [.PG] 10)).2.2
    (FV.sq 10 8) [] (by with_unfolding_all decide) (by decide) with
  | ⟨hmem, hnan, _⟩ => ⟨hmem, hnan⟩

end FantasyDraft

namespace FantasyDraft

theorem scoredList_key_WF (st : DraftState) (hWF : ∀ r ∈ st.available, FV.WF r.adjv) :
    ∀ x ∈ scoredList st, FV.WF x.2 := by
  intro x hx
  rcases List.mem_map.mp hx with ⟨pos, _, rfl⟩
  exact mulQ_WF _ _ (positionValue_WF st.available pos hWF)

/-- C8 (amended): the recommendation operation returns the first three of
the user's needed positions, each paired with score =
(maximum Adjusted VORP among pool players counted eligible by literal
Position-List membership for every non-flex slot name — so UTIL and Bench,
which appear in no player's list, always count zero eligible players — or 0
if none) times scarcity (the reciprocal of that eligible count, or 0 when it
is 0), stably sorted by score descending: the result is a permutation of the
scored needed list, pairwise descending, ties (order-equivalent comparable
scores) kept in the roster slot schedule's enumeration order, and an empty
needed set yields an empty sequence.  (The claim as stated read eligibility
per spec section 3, under which UTIL and Bench accept every player; the code
filters by literal membership, see the counterexample.) -/
theorem recommendations_characterization (st : DraftState)
    (hWF : ∀ r ∈ st.available, FV.WF r.adjv) :
    (userNeeded st = [] → generateTopThree st = []) ∧
    generateTopThree st = (rankedList st).take 3 ∧
    (rankedList st).Perm (scoredList st) ∧
    (rankedList st).Pairwise (fun x y => FV.lt x.2 y.2 = false) ∧
    (∀ k : FV, FV.WF k → k.isNan = false →
      (rankedList st).filter
          (fun x => !(x.2).isNan && !FV.lt x.2 k && !FV.lt k x.2)
        = (scoredList st).filter
          (fun x => !(x.2).isNan && !FV.lt x.2 k && !FV.lt k x.2)) := by
  have hmap : (userNeeded st).map (fun pos =>
      (pos, FV.mulQ (pvGet st.available defaultCaps (st.rosters st.userPos) pos)
        (calcScarcity st.available pos))) = scoredList st := by
    apply List.map_congr_left
    intro pos hpos
    have hopen : (st.rosters st.userPos pos).length < defaultCaps pos := by
      have := List.of_mem_filter hpos
      simpa using this
    have hpv : pvGet st.available defaultCaps (st.rosters st.userPos) pos
        = positionValue st.available pos := by
      unfold pvGet
      rw [if_neg (by omega)]
    rw [hpv]
    rfl
  have hmain : generateTopThree st = (rankedList st).take 3 := by
    unfold generateTopThree
    simp only
    by_cases hne : (positionsNeeded defaultCaps (st.rosters st.userPos)).isEmpty
    · rw [if_pos hne]
      have : userNeeded st = [] := List.isEmpty_iff.mp hne
      rw [rankedList, scoredList, this]
      rfl
    · rw [if_neg hne]
      rw [rankedList, ← hmap]
      rfl
  refine ⟨?_, hmain, sortDescBy_perm _ _ _, ?_, ?_⟩
  · intro hnil
    rw [hmain, rankedList, scoredList, hnil]
    rfl
  · exact sortDescBy_pairwise (P := FV.WF)
      (fun x y hx hy h => FV.lt_asymm hx hy h)
      (fun x y z hx hy hz h1 h2 => FV.lt_trans hx hy hz h1 h2)
      (scoredList st) (scoredList_key_WF st hWF)
  · intro k hk hkn
    exact sortDescBy_stable (P := FV.WF) (fun v => !v.isNan)
      (fun x y hx hy h => FV.lt_asymm hx hy h)
      (fun x y z hx hy hz h1 h2 => FV.lt_trans hx hy hz h1 h2)
      (fun x y z hx hy hz hgz hxy h1 h2 =>
        FV.lt_of_lt_of_tie hx hy hz (by simpa using hgz) hxy h1 h2)
      (scoredList st) (scoredList_key_WF st hWF) k hk (by simp [hkn])

/-- C8 counterexample: in stUtil the user needs only UTIL.  Under the
specification's eligibility (UTIL accepts every player) the claimed score of
UTIL is (max Adjusted VORP = 10/sqrt 8) x (scarcity 1/2) = 5/sqrt 8 > 0,
but the code counts UTIL eligibility by literal membership of 'UTIL' in the
Position List, finds no eligible player, and returns score 0. -/
theorem recommendations_counterexample :
    userNeeded stUtil = [Slot.UTIL] ∧
    generateTopThree stUtil = [(Slot.UTIL, FV.ofQ 0)] ∧
    claimScore stUtil.available Slot.UTIL = FV.sq 5 8 ∧
    FV.lt (FV.ofQ 0) (FV.sq 5 8) = true := by
  with_unfolding_all decide

theorem recommendations_characterization_witness :
    generateTopThree stUtil = (rankedList stUtil).take 3 ∧
      (rankedList stUtil).Perm (scoredList stUtil) :=
  ⟨(recommendations_characterization stUtil (by with_unfolding_all decide)).2.1,
   (recommendations_characterization stUtil (by with_unfolding_all decide)).2.2.1⟩

end FantasyDraft

namespace FantasyDraft

theorem replacementLevel_default_isSome (T : ℕ) (pool : List Row) (pos : Slot)
    (hT : 1 ≤ T) (hpos : pos ∈ positions5) :
    (replacementLevel defaultCaps T pool pos).isSome := by
  have hTQ : (1 : ℚ) ≤ (T : ℚ) := by exact_mod_cast hT
  have hd : (1 : ℚ) ≤ positionDemand defaultCaps T pos := by
    fin_cases hpos <;>
      · unfold positionDemand defaultCaps
        simp
        nlinarith
  have hfl : (1 : ℤ) ≤ ⌊positionDemand defaultCaps T pos⌋ :=
    Int.le_floor.mpr (by exact_mod_cast hd)
  unfold replacementLevel
  simp only
  split
  · rename_i hlt
    unfold pandasIloc
    rw [if_pos (by omega)]
    rw [Option.isSome_map']
    have hlen : (⌊positionDemand defaultCaps T pos⌋ - 1).toNat
        < (eligSorted pool pos).length := by omega
    rw [List.get?_eq_get hlen]
    rfl
  · rfl

end FantasyDraft
